import Mathlib

/-!
Shallow embedding of the toki SQL query builder (package `toki`,
files `toki.go`, `raw.go` and the raw-expression file defining
`SQLExpression` / `Raw`), together with proofs about the placeholder
rewriter, the argument ledger and the clause assembler.

Go strings are modelled as Lean `String` (rune iteration becomes
iteration over `String.data : List Char`); `interface{}` argument
values are modelled by the inductive `Val`; the `sync.Pool` of scratch
`strings.Builder`s inside `String()` is an allocation cache with no
observable content and is not part of the logical state.
-/

namespace Toki

/-- Argument values (`interface{}` in Go). The `raw` constructor is the
`Raw` string type, the only type in the repository implementing the
`SQLExpression` interface (`SQL() string`); `vint`/`vstr` stand for
ordinary values, which do not implement it. -/
inductive Val where
  | vint : Int → Val
  | vstr : String → Val
  | raw  : String → Val
deriving DecidableEq, Repr

/-- Models the Go type assertion `val.(SQLExpression)` followed by
`.SQL()`: succeeds exactly on `Raw` values, returning the literal
fragment. -/
def Val.sqlExpr : Val → Option String
  | .raw s => some s
  | _ => none

/-- Models `strings.HasSuffix(s, suffix)` (byte suffix coincides with
rune suffix for the ASCII suffixes used here). -/
def hasSuffix (s suffix : String) : Bool :=
  suffix.data.isSuffixOf s.data

/-- The `Builder` struct of `toki.go`: ordered clause fragments
(`parts`), the argument ledger (`args`), the placeholder counter
(`argIndex`), the table name (Go zero value `""`) and the optional
transaction handle (opaque, presence only). The scratch-buffer `pool`
field is omitted (see the file header). -/
structure Builder where
  parts : List String
  args : List Val
  argIndex : Nat
  table : String
  tx : Option Unit
deriving DecidableEq, Repr

/-- `New()`: fresh builder, all fields at their Go zero values. -/
def Builder.new : Builder := ⟨[], [], 0, "", none⟩

/-- `WithTransaction(tx)`: stores the (opaque) transaction handle. -/
def Builder.withTransaction (b : Builder) (t : Unit) : Builder :=
  { b with tx := some t }

/-- The rune loop of `convertPlaceholders`: each literal `?` is replaced
by `$` followed by the decimal of the incremented counter
(`fmt.Sprintf("$%d", b.argIndex)` after `b.argIndex++`); every other
rune is copied. Returns the built character list and the final counter. -/
def convertPHCore (idx : Nat) : List Char → List Char × Nat
  | [] => ([], idx)
  | c :: rest =>
    if c = '?' then
      let r := convertPHCore (idx + 1) rest
      ('$' :: (Nat.repr (idx + 1)).data ++ r.1, r.2)
    else
      let r := convertPHCore idx rest
      (c :: r.1, r.2)

/-- `(*Builder).convertPlaceholders(query)`: runs the rune loop starting
from the current counter; the only field it assigns is `argIndex`. -/
def Builder.convertPlaceholders (b : Builder) (query : String) : String × Builder :=
  let r := convertPHCore b.argIndex query.data
  (⟨r.1⟩, { b with argIndex := r.2 })

/-- `Select(columns...)`: appends `"SELECT "` + comma-joined columns. -/
def Builder.select (b : Builder) (columns : List String) : Builder :=
  { b with parts := b.parts ++ ["SELECT " ++ String.intercalate ", " columns] }

/-- `From(table)`: records the table name and appends the FROM fragment. -/
def Builder.fromT (b : Builder) (table : String) : Builder :=
  { b with table := table, parts := b.parts ++ ["FROM " ++ table] }

/-- `Where(condition, args...)`: prepends a `"WHERE"` fragment when the
fragment list is nonempty and its last fragment does not have suffix
`"WHERE"` (`strings.HasSuffix`), then appends the rewritten condition
and the supplied values. -/
def Builder.whereC (b : Builder) (condition : String) (vals : List Val) : Builder :=
  let parts1 :=
    match b.parts.getLast? with
    | none => b.parts
    | some last => if hasSuffix last "WHERE" then b.parts else b.parts ++ ["WHERE"]
  let r := convertPHCore b.argIndex condition.data
  { b with parts := parts1 ++ [⟨r.1⟩], argIndex := r.2, args := b.args ++ vals }

/-- `AndWhere(condition, args...)`: unconditionally appends `"AND"` and
the rewritten condition, then the values. -/
def Builder.andWhere (b : Builder) (condition : String) (vals : List Val) : Builder :=
  let r := convertPHCore b.argIndex condition.data
  { b with parts := b.parts ++ ["AND", ⟨r.1⟩], argIndex := r.2, args := b.args ++ vals }

/-- `OrWhere(condition, args...)`: as `AndWhere` with `"OR"`. -/
def Builder.orWhere (b : Builder) (condition : String) (vals : List Val) : Builder :=
  let r := convertPHCore b.argIndex condition.data
  { b with parts := b.parts ++ ["OR", ⟨r.1⟩], argIndex := r.2, args := b.args ++ vals }

/-- `OrderBy(columns...)`. -/
def Builder.orderBy (b : Builder) (columns : List String) : Builder :=
  { b with parts := b.parts ++ ["ORDER BY " ++ String.intercalate ", " columns] }

/-- `Update(table)`. -/
def Builder.update (b : Builder) (table : String) : Builder :=
  { b with parts := b.parts ++ ["UPDATE " ++ table] }

/-- The loop body of `Set`: walks the assignment entries, emitting
`col = <literal>` for `SQLExpression` values (no counter bump, no
ledger entry) and `col = $<n>` with an incremented counter plus a
ledger entry otherwise. Go iterates a map in unspecified order; the
entries are modelled as a list of pairs in one iteration order.
Returns (fragments, appended values, final counter). -/
def setFold (idx : Nat) : List (String × Val) → List String × List Val × Nat
  | [] => ([], [], idx)
  | (col, val) :: rest =>
    match val.sqlExpr with
    | some sql =>
      let r := setFold idx rest
      ((col ++ " = " ++ sql) :: r.1, r.2.1, r.2.2)
    | none =>
      let r := setFold (idx + 1) rest
      ((col ++ " = $" ++ Nat.repr (idx + 1)) :: r.1, val :: r.2.1, r.2.2)

/-- `Set(updates)`: runs the loop and appends one
`"SET "` + comma-joined fragment. -/
def Builder.set (b : Builder) (updates : List (String × Val)) : Builder :=
  let r := setFold b.argIndex updates
  { b with parts := b.parts ++ ["SET " ++ String.intercalate ", " r.1],
           args := b.args ++ r.2.1, argIndex := r.2.2 }

/-- `Insert(table, columns...)`. -/
def Builder.insert (b : Builder) (table : String) (columns : List String) : Builder :=
  { b with parts := b.parts ++
      ["INSERT INTO " ++ table ++ " (" ++ String.intercalate ", " columns ++ ")"] }

/-- `Values(values...)`: the i-th value (0-based) gets placeholder
`$(argIndex+i+1)` straight from the counter, the counter advances by
the number of values, and all values are appended to the ledger. -/
def Builder.valuesB (b : Builder) (vals : List Val) : Builder :=
  let placeholders :=
    (List.range vals.length).map (fun i => "$" ++ Nat.repr (b.argIndex + i + 1))
  { b with
    parts := b.parts ++ ["VALUES (" ++ String.intercalate ", " placeholders ++ ")"],
    argIndex := b.argIndex + vals.length,
    args := b.args ++ vals }

/-- `Delete(table)` (and its alias `DeleteFrom`). -/
def Builder.delete (b : Builder) (table : String) : Builder :=
  { b with parts := b.parts ++ ["DELETE FROM " ++ table] }

/-- `Returning(columns...)`: appends the two fragments `"RETURNING"` and
the comma-joined column list, but only when at least one column is
given. -/
def Builder.returning (b : Builder) (columns : List String) : Builder :=
  if 0 < columns.length then
    { b with parts := b.parts ++ ["RETURNING", String.intercalate ", " columns] }
  else b

/-- `String()`: writes the fragments separated by single spaces into a
pooled scratch buffer, which is reset and returned to the pool; it
assigns to no `Builder` field, so the builder component of the result
is the receiver unchanged. -/
def Builder.stringRun (b : Builder) : String × Builder :=
  (String.intercalate " " b.parts, b)

/-- The rendered text alone. -/
def Builder.render (b : Builder) : String :=
  String.intercalate " " b.parts

/-! A small language of builder calls, for stating the ledger invariant
over arbitrary call sequences. Each constructor is one public builder
method of `toki.go`. -/

/-- One builder call. -/
inductive Call where
  | select (cols : List String)
  | fromT (t : String)
  | whereC (cond : String) (vals : List Val)
  | andWhere (cond : String) (vals : List Val)
  | orWhere (cond : String) (vals : List Val)
  | orderBy (cols : List String)
  | update (t : String)
  | setU (updates : List (String × Val))
  | insert (t : String) (cols : List String)
  | values (vals : List Val)
  | delete (t : String)
  | returning (cols : List String)
deriving DecidableEq, Repr

/-- Run one call against the builder. -/
def Call.apply (b : Builder) : Call → Builder
  | .select cols => b.select cols
  | .fromT t => b.fromT t
  | .whereC c v => b.whereC c v
  | .andWhere c v => b.andWhere c v
  | .orWhere c v => b.orWhere c v
  | .orderBy cols => b.orderBy cols
  | .update t => b.update t
  | .setU u => b.set u
  | .insert t cols => b.insert t cols
  | .values v => b.valuesB v
  | .delete t => b.delete t
  | .returning cols => b.returning cols

/-- How many placeholders the call generates: one per `?` rune for the
WHERE family, one per value for `Values`, one per non-raw entry for
`Set`, none otherwise. -/
def Call.gen : Call → Nat
  | .whereC c _ => c.data.count '?'
  | .andWhere c _ => c.data.count '?'
  | .orWhere c _ => c.data.count '?'
  | .setU u => (u.filter (fun p => p.2.sqlExpr.isNone)).length
  | .values v => v.length
  | _ => 0

/-- The values the call appends to the ledger. -/
def Call.pushed : Call → List Val
  | .whereC _ v => v
  | .andWhere _ v => v
  | .orWhere _ v => v
  | .setU u => (u.filter (fun p => p.2.sqlExpr.isNone)).map Prod.snd
  | .values v => v
  | _ => []

/-- Well-formed use per the spec's contract: each WHERE-family call
supplies exactly as many values as `?` markers in its condition.
(`Values` and `Set` pair placeholders with values by construction.) -/
def Call.wf : Call → Bool
  | .whereC c v => v.length == c.data.count '?'
  | .andWhere c v => v.length == c.data.count '?'
  | .orWhere c v => v.length == c.data.count '?'
  | _ => true

/-- Run a whole call sequence from a builder. -/
def applyAll (b : Builder) : List Call → Builder
  | [] => b
  | c :: cs => applyAll (c.apply b) cs

/-- The concatenation of the values the calls push, in call order. -/
def callsPushed : List Call → List Val
  | [] => []
  | c :: cs => c.pushed ++ callsPushed cs

/-- The total number of placeholders the calls generate. -/
def callsGen : List Call → Nat
  | [] => 0
  | c :: cs => c.gen + callsGen cs

/-! Model of the struct binder `Bind`. Reflection is modelled by passing
the struct's declared type name and its top-level fields explicitly; a
pointer input is dereferenced by Go before inspection, so it is
modelled by passing the pointed-to struct value. -/

/-- One top-level struct field: its `db` tag (`""` when the tag is absent,
as `Tag.Get` returns) and its current value. -/
structure Field where
  tag : String
  value : Val
deriving DecidableEq, Repr

/-- A struct value under reflection: declared type name and top-level
fields in declaration order. -/
structure StructVal where
  typeName : String
  fields : List Field
deriving DecidableEq, Repr

/-- Models `strings.ToLower`: Go maps the string rune by rune, which on
the rune-list model is `Char.toLower` over `data`. -/
def toLowerStr (s : String) : String := ⟨s.data.map Char.toLower⟩

/-- Go map assignment `result[tag] = val` on an association-list model of
the map: overwrite the existing entry for the key, or append a new
one. -/
def mapInsert (m : List (String × Val)) (k : String) (v : Val) :
    List (String × Val) :=
  if m.any (fun p => p.1 == k) then
    m.map (fun p => if p.1 == k then (k, v) else p)
  else m ++ [(k, v)]

/-- The field loop of `Bind`: each field whose `db` tag is nonempty is
written into the result map. -/
def bindFields : List Field → List (String × Val) → List (String × Val)
  | [], acc => acc
  | f :: rest, acc =>
    if f.tag ≠ "" then bindFields rest (mapInsert acc f.tag f.value)
    else bindFields rest acc

/-- `Bind(dest)`: builds the column-name→value map from the tagged fields
and, when no table name is set, assigns the lower-cased declared type
name as the table. -/
def Builder.bind (b : Builder) (obj : StructVal) :
    List (String × Val) × Builder :=
  (bindFields obj.fields [],
   if b.table = "" then { b with table := toLowerStr obj.typeName } else b)

/-! Basic lemmas about the placeholder rewriter. -/

/-- The final counter is the initial counter plus the number of `?` runes. -/
theorem convertPHCore_snd (l : List Char) (idx : Nat) :
    (convertPHCore idx l).2 = idx + l.count '?' := by
  induction l generalizing idx with
  | nil => simp [convertPHCore]
  | cons c rest ih =>
    by_cases h : c = '?'
    · subst h
      simp [convertPHCore, ih, List.count_cons]
      omega
    · simp [convertPHCore, h, ih, List.count_cons]

/-- The rewriter is a homomorphism for concatenation: the second half is
rewritten starting from the counter left by the first half. -/
theorem convertPHCore_append (a : List Char) (idx : Nat) (b : List Char) :
    convertPHCore idx (a ++ b) =
      ((convertPHCore idx a).1 ++ (convertPHCore (convertPHCore idx a).2 b).1,
       (convertPHCore (convertPHCore idx a).2 b).2) := by
  induction a generalizing idx with
  | nil => simp [convertPHCore]
  | cons c rest ih =>
    by_cases h : c = '?' <;> simp [convertPHCore, h, ih]

/-- A marker-free character list passes through verbatim with the counter
untouched. -/
theorem convertPHCore_of_count_zero (l : List Char) (idx : Nat)
    (h : l.count '?' = 0) : convertPHCore idx l = (l, idx) := by
  induction l with
  | nil => simp [convertPHCore]
  | cons c rest ih =>
    rw [List.count_cons] at h
    have hc : ¬ c = '?' := by
      intro hc
      subst hc
      simp at h
    have hr : rest.count '?' = 0 := by
      by_cases hb : (c == '?') = true
      · simp [beq_iff_eq] at hb
        exact absurd hb hc
      · simp [hb] at h
        exact h
    simp [convertPHCore, hc, ih hr]

/-- Claim C1: `convertPlaceholders` replaces the Kth literal `?` (left to
right) with `$(counter+K)`, passes every other rune through unchanged
(pre-existing `$n` text has no `?` rune and is therefore untouched),
increments the counter by exactly the number of `?` occurrences, and
touches no other builder state; a marker-free condition string is
returned verbatim with the whole builder unchanged. The second conjunct
is the inductive form of the Kth-marker property: across any
marker-free prefix `a`, the first marker receives number `idx + 1` and
the remainder is rewritten starting from `idx + 1`. -/
theorem C1_convertPlaceholders_spec :
    (∀ (b : Builder) (q : String),
        (b.convertPlaceholders q).2 =
          { b with argIndex := b.argIndex + q.data.count '?' })
    ∧ (∀ (idx : Nat) (a rest : List Char), a.count '?' = 0 →
        convertPHCore idx (a ++ '?' :: rest) =
          (a ++ '$' :: (Nat.repr (idx + 1)).data ++ (convertPHCore (idx + 1) rest).1,
           (convertPHCore (idx + 1) rest).2))
    ∧ (∀ (b : Builder) (q : String), q.data.count '?' = 0 →
        b.convertPlaceholders q = (q, b)) := by
  refine ⟨?_, ?_, ?_⟩
  · intro b q
    simp [Builder.convertPlaceholders, convertPHCore_snd]
  · intro idx a rest h
    rw [convertPHCore_append, convertPHCore_of_count_zero a idx h]
    simp [convertPHCore]
  · intro b q h
    simp [Builder.convertPlaceholders, convertPHCore_of_count_zero q.data b.argIndex h]

/-- Concrete instances of C1: a marker-free string comes back verbatim with
the builder unchanged, and a single-marker string is rewritten across
its marker-free prefix. -/
theorem C1_convertPlaceholders_spec_witness :
    Builder.new.convertPlaceholders "abc" = ("abc", Builder.new)
    ∧ convertPHCore 0 ("id = ".data ++ '?' :: []) =
        ("id = ".data ++ '$' :: (Nat.repr 1).data ++ (convertPHCore 1 []).1,
         (convertPHCore 1 []).2) :=
  ⟨C1_convertPlaceholders_spec.2.2 Builder.new "abc" (by decide),
   C1_convertPlaceholders_spec.2.1 0 "id = ".data [] (by decide)⟩

/-- Claim C7: rendering is idempotent and a pure read: `String()` returns
the same text on consecutive calls and leaves the fragment sequence,
argument ledger, counter, table and transaction handle unchanged. -/
theorem C7_string_idempotent_pure :
    ∀ b : Builder,
      (b.stringRun).2 = b
      ∧ ((b.stringRun).2.stringRun).1 = (b.stringRun).1
      ∧ ((b.stringRun).2.stringRun).2 = b :=
  fun _ => ⟨rfl, rfl, rfl⟩

/-- Claim C4: the chained scenario
`Select("*").From("users").Where("age > ?", 18).AndWhere("status = ?", "active").OrderBy("created_at DESC")`
renders the expected text and ledger. -/
theorem C4_select_where_scenario :
    ((((((Builder.new.select ["*"]).fromT "users").whereC "age > ?"
          [Val.vint 18]).andWhere "status = ?" [Val.vstr "active"]).orderBy
        ["created_at DESC"]).render
      = "SELECT * FROM users WHERE age > $1 AND status = $2 ORDER BY created_at DESC")
    ∧ ((((((Builder.new.select ["*"]).fromT "users").whereC "age > ?"
          [Val.vint 18]).andWhere "status = ?" [Val.vstr "active"]).orderBy
        ["created_at DESC"]).args
      = [Val.vint 18, Val.vstr "active"]) := by
  constructor
  · rfl
  · rfl

/-- Claim C6: `Insert("users","name","email").Values("a","b")` renders the
expected text with ledger `["a","b"]`; in general `Values` appends the
given values to the ledger in order and advances the counter by their
number (the placeholders are taken directly from the counter, not from
the rewriter). -/
theorem C6_insert_values_spec :
    (((Builder.new.insert "users" ["name", "email"]).valuesB
        [Val.vstr "a", Val.vstr "b"]).render
      = "INSERT INTO users (name, email) VALUES ($1, $2)"
      ∧ ((Builder.new.insert "users" ["name", "email"]).valuesB
          [Val.vstr "a", Val.vstr "b"]).args = [Val.vstr "a", Val.vstr "b"])
    ∧ ∀ (b : Builder) (vals : List Val),
        (b.valuesB vals).args = b.args ++ vals
        ∧ (b.valuesB vals).argIndex = b.argIndex + vals.length
        ∧ (b.valuesB vals).table = b.table
        ∧ (b.valuesB vals).tx = b.tx :=
  ⟨⟨rfl, rfl⟩, fun _ _ => ⟨rfl, rfl, rfl, rfl⟩⟩

/-- Claim C9: `Where` on a builder with an empty fragment sequence inserts
no `WHERE` keyword: the fragment list becomes just the rewritten
condition, and the rendered string is the rewritten condition itself. -/
theorem C9_where_on_empty_builder :
    ∀ (b : Builder) (cond : String) (vals : List Val), b.parts = [] →
      (b.whereC cond vals).parts = [⟨(convertPHCore b.argIndex cond.data).1⟩]
      ∧ (b.whereC cond vals).render =
          String.mk (convertPHCore b.argIndex cond.data).1 := by
  intro b cond vals h
  constructor
  · simp [Builder.whereC, h]
  · simp [Builder.render, Builder.whereC, h]
    rfl

/-- Concrete instance of C9: the very first call after `New()` being a
`Where` yields just the rewritten condition. -/
theorem C9_where_on_empty_builder_witness :
    (Builder.new.whereC "x = ?" [Val.vint 5]).parts =
      [⟨(convertPHCore Builder.new.argIndex ("x = ?").data).1⟩] :=
  (C9_where_on_empty_builder Builder.new "x = ?" [Val.vint 5] rfl).1

/-- Claim C10: `Returning` with zero columns leaves the whole builder
unchanged; with at least one column it appends exactly the fragments
`"RETURNING"` and the comma-joined column list, touching no other
field. -/
theorem C10_returning_frame :
    ∀ (b : Builder) (cols : List String),
      (cols = [] → b.returning cols = b)
      ∧ (cols ≠ [] →
          (b.returning cols).parts =
            b.parts ++ ["RETURNING", String.intercalate ", " cols]
          ∧ (b.returning cols).args = b.args
          ∧ (b.returning cols).argIndex = b.argIndex
          ∧ (b.returning cols).table = b.table
          ∧ (b.returning cols).tx = b.tx) := by
  intro b cols
  constructor
  · intro h
    subst h
    rfl
  · intro h
    have hl : 0 < cols.length := List.length_pos.mpr h
    simp [Builder.returning, hl]

/-- Concrete instances of C10: empty and nonempty column lists. -/
theorem C10_returning_frame_witness :
    Builder.new.returning [] = Builder.new
    ∧ (Builder.new.returning ["id"]).parts =
        Builder.new.parts ++ ["RETURNING", String.intercalate ", " ["id"]] :=
  ⟨(C10_returning_frame Builder.new []).1 rfl,
   ((C10_returning_frame Builder.new ["id"]).2 (by decide)).1⟩

/-- Claim C3 fails on the code: two immediately successive `Where` calls
duplicate the `WHERE` keyword, because the guard inspects the last
fragment, which after a `Where` call is the rewritten condition, not
`"WHERE"`. Concretely,
`Select("*").From("users").Where("a = ?", 1).Where("b = ?", 2)` holds
two `"WHERE"` fragments and renders with a repeated keyword. -/
theorem C3_counterexample :
    (((((Builder.new.select ["*"]).fromT "users").whereC "a = ?"
        [Val.vint 1]).whereC "b = ?" [Val.vint 2]).parts.count "WHERE" = 2)
    ∧ ((((Builder.new.select ["*"]).fromT "users").whereC "a = ?"
        [Val.vint 1]).whereC "b = ?" [Val.vint 2]).render
      = "SELECT * FROM users WHERE a = $1 WHERE b = $2" := by
  constructor
  · rfl
  · rfl

/-- Claim C3 as amended: `Where` prepends the `WHERE` keyword exactly when
the fragment list is nonempty and its last fragment does not end with
the text `WHERE` (a suffix check, not an equality check). Since each
`Where` call leaves its rewritten condition as the last fragment, a
second immediate `Where` call inserts the keyword again whenever that
condition does not itself end in `WHERE`: successive `Where` calls
duplicate the keyword. -/
theorem C3_where_keyword_amended :
    ∀ (b : Builder) (c1 : String) (v1 : List Val) (c2 : String) (v2 : List Val)
      (last : String),
      b.parts.getLast? = some last →
      hasSuffix last "WHERE" = false →
      hasSuffix ⟨(convertPHCore b.argIndex c1.data).1⟩ "WHERE" = false →
      ((b.whereC c1 v1).whereC c2 v2).parts =
        b.parts ++
          ["WHERE", ⟨(convertPHCore b.argIndex c1.data).1⟩,
           "WHERE",
           ⟨(convertPHCore (convertPHCore b.argIndex c1.data).2 c2.data).1⟩] := by
  intro b c1 v1 c2 v2 last h1 h2 h3
  have hfirst :
      (b.whereC c1 v1).parts =
        (b.parts ++ ["WHERE"]) ++ [⟨(convertPHCore b.argIndex c1.data).1⟩] := by
    simp [Builder.whereC, h1, h2]
  have hlast :
      (b.whereC c1 v1).parts.getLast? =
        some ⟨(convertPHCore b.argIndex c1.data).1⟩ := by
    rw [hfirst]
    exact List.getLast?_concat _
  have hidx : (b.whereC c1 v1).argIndex = (convertPHCore b.argIndex c1.data).2 := rfl
  show ((b.whereC c1 v1).whereC c2 v2).parts = _
  simp [Builder.whereC, hlast, h3, hfirst, hidx, h1, h2]

/-- Concrete instance of the amended C3, exhibiting the duplicated keyword
after `Select("*").From("users")`. -/
theorem C3_where_keyword_amended_witness :
    ((((Builder.new.select ["*"]).fromT "users").whereC "a = ?"
        [Val.vint 1]).whereC "b = ?" [Val.vint 2]).parts =
      ((Builder.new.select ["*"]).fromT "users").parts ++
        ["WHERE",
         ⟨(convertPHCore ((Builder.new.select ["*"]).fromT "users").argIndex
            ("a = ?").data).1⟩,
         "WHERE",
         ⟨(convertPHCore
            (convertPHCore ((Builder.new.select ["*"]).fromT "users").argIndex
              ("a = ?").data).2 ("b = ?").data).1⟩] :=
  C3_where_keyword_amended ((Builder.new.select ["*"]).fromT "users")
    "a = ?" [Val.vint 1] "b = ?" [Val.vint 2] "FROM users"
    (by decide) (by decide) (by decide)

/-! Lemmas about the `Set` loop. -/

/-- The ledger entries and counter growth of the `Set` loop come exactly
from the non-raw entries, in order. -/
theorem setFold_ledger (updates : List (String × Val)) (idx : Nat) :
    (setFold idx updates).2.1 =
      (updates.filter (fun p => p.2.sqlExpr.isNone)).map Prod.snd
    ∧ (setFold idx updates).2.2 =
      idx + (updates.filter (fun p => p.2.sqlExpr.isNone)).length := by
  induction updates generalizing idx with
  | nil => simp [setFold]
  | cons p rest ih =>
    obtain ⟨col, val⟩ := p
    cases h : val.sqlExpr with
    | some s => simp [setFold, h, ih idx]
    | none =>
      refine ⟨?_, ?_⟩
      · simp [setFold, h, (ih (idx + 1)).1]
      · simp [setFold, h, (ih (idx + 1)).2]
        omega

/-- The `Set` loop is a homomorphism for concatenation of the entry list. -/
theorem setFold_append (a : List (String × Val)) (idx : Nat)
    (b : List (String × Val)) :
    setFold idx (a ++ b) =
      ((setFold idx a).1 ++ (setFold (setFold idx a).2.2 b).1,
       (setFold idx a).2.1 ++ (setFold (setFold idx a).2.2 b).2.1,
       (setFold (setFold idx a).2.2 b).2.2) := by
  induction a generalizing idx with
  | nil => simp [setFold]
  | cons p rest ih =>
    obtain ⟨col, val⟩ := p
    cases h : val.sqlExpr with
    | some s => simp [setFold, h, ih idx]
    | none => simp [setFold, h, ih (idx + 1)]

/-- Claim C5: in a `Set` assignment list, raw-expression values are
embedded as their literal fragment without allocating a placeholder or
appending a ledger entry, while non-raw values allocate the next
sequential placeholder and are appended to the ledger. Conjuncts:
(1) ledger and counter reflect exactly the non-raw entries, in order;
(2) deleting a raw entry from anywhere in the list changes neither the
ledger nor the counter, and removes only its own literal fragment;
(3) a single non-raw assignment gets placeholder number `argIndex + 1`
and one ledger entry. -/
theorem C5_set_raw_expressions :
    (∀ (b : Builder) (updates : List (String × Val)),
        (b.set updates).args =
          b.args ++ (updates.filter (fun p => p.2.sqlExpr.isNone)).map Prod.snd
        ∧ (b.set updates).argIndex =
          b.argIndex + (updates.filter (fun p => p.2.sqlExpr.isNone)).length)
    ∧ (∀ (idx : Nat) (pre post : List (String × Val)) (col sql : String),
        (setFold idx (pre ++ (col, Val.raw sql) :: post)).2 =
          (setFold idx (pre ++ post)).2
        ∧ (setFold idx (pre ++ (col, Val.raw sql) :: post)).1 =
          (setFold idx pre).1 ++
            (col ++ " = " ++ sql) :: (setFold (setFold idx pre).2.2 post).1)
    ∧ (∀ (b : Builder) (col : String) (v : Val), v.sqlExpr = none →
        b.set [(col, v)] =
          { b with
            parts := b.parts ++ ["SET " ++ col ++ " = $" ++ Nat.repr (b.argIndex + 1)],
            args := b.args ++ [v],
            argIndex := b.argIndex + 1 }) := by
  refine ⟨?_, ?_, ?_⟩
  · intro b updates
    have h := setFold_ledger updates b.argIndex
    exact ⟨by simp [Builder.set, h.1], by simp [Builder.set, h.2]⟩
  · intro idx pre post col sql
    have hraw : (Val.raw sql).sqlExpr = some sql := rfl
    constructor
    · rw [setFold_append, setFold_append]
      simp [setFold, hraw]
    · rw [setFold_append]
      simp [setFold, hraw]
  · intro b col v h
    simp [Builder.set, setFold, h]
    rfl

/-- Concrete instances of C5: the scenario
`Update("counters").Set({"count": Raw("count + 1")})` allocates nothing,
and a single non-raw assignment takes placeholder `$1` on a fresh
builder. -/
theorem C5_set_raw_expressions_witness :
    ((Builder.new.update "counters").set [("count", Val.raw "count + 1")]).args
        = (Builder.new.update "counters").args
    ∧ Builder.new.set [("n", Val.vint 3)] =
        { Builder.new with
          parts := ["SET " ++ "n" ++ " = $" ++ Nat.repr 1],
          args := [Val.vint 3],
          argIndex := 1 } := by
  constructor
  · have h := (C5_set_raw_expressions.1 (Builder.new.update "counters")
      [("count", Val.raw "count + 1")]).1
    rw [h]
    rfl
  · have h := C5_set_raw_expressions.2.2 Builder.new "n" (Val.vint 3) rfl
    rw [h]
    rfl

/-- Every call appends exactly its `pushed` values and advances the
counter by exactly its `gen` count. -/
theorem Call.apply_args_argIndex (b : Builder) (c : Call) :
    (c.apply b).args = b.args ++ c.pushed
    ∧ (c.apply b).argIndex = b.argIndex + c.gen := by
  cases c with
  | select cols => simp [apply, Builder.select, pushed, gen]
  | fromT t => simp [apply, Builder.fromT, pushed, gen]
  | whereC cond v =>
    refine ⟨rfl, ?_⟩
    simp [apply, Builder.whereC, gen, convertPHCore_snd]
  | andWhere cond v =>
    refine ⟨rfl, ?_⟩
    simp [apply, Builder.andWhere, gen, convertPHCore_snd]
  | orWhere cond v =>
    refine ⟨rfl, ?_⟩
    simp [apply, Builder.orWhere, gen, convertPHCore_snd]
  | orderBy cols => simp [apply, Builder.orderBy, pushed, gen]
  | update t => simp [apply, Builder.update, pushed, gen]
  | setU u =>
    have h := setFold_ledger u b.argIndex
    exact ⟨by simp [apply, Builder.set, pushed, h.1],
           by simp [apply, Builder.set, gen, h.2]⟩
  | insert t cols => simp [apply, Builder.insert, pushed, gen]
  | values v => simp [apply, Builder.valuesB, pushed, gen]
  | delete t => simp [apply, Builder.delete, pushed, gen]
  | returning cols =>
    by_cases h : 0 < cols.length <;>
      simp [apply, Builder.returning, h, pushed, gen]

/-- A well-formed call appends exactly as many values as placeholders it
generates. -/
theorem Call.wf_pushed_length (c : Call) (h : c.wf = true) :
    c.pushed.length = c.gen := by
  cases c <;> simp_all [wf, pushed, gen]

/-- Running a sequence appends all pushed values in order and advances the
counter by the total generation count. -/
theorem applyAll_args_argIndex (cs : List Call) (b : Builder) :
    (applyAll b cs).args = b.args ++ callsPushed cs
    ∧ (applyAll b cs).argIndex = b.argIndex + callsGen cs := by
  induction cs generalizing b with
  | nil => simp [applyAll, callsPushed, callsGen]
  | cons c cs ih =>
    have h := Call.apply_args_argIndex b c
    constructor
    · rw [applyAll, (ih _).1, h.1]
      simp [callsPushed]
    · rw [applyAll, (ih _).2, h.2]
      simp [callsGen]
      omega

/-- Under well-formed use the pushed values are exactly as many as the
placeholders generated. -/
theorem callsPushed_length (cs : List Call) (h : ∀ c ∈ cs, c.wf = true) :
    (callsPushed cs).length = callsGen cs := by
  induction cs with
  | nil => simp [callsPushed, callsGen]
  | cons c cs ih =>
    simp only [callsPushed, callsGen, List.length_append]
    rw [Call.wf_pushed_length c (h c (List.mem_cons_self c cs)),
        ih (fun d hd => h d (List.mem_cons_of_mem c hd))]

/-- Dropping the placeholders generated by the first `i` calls lands
exactly at the values pushed by call `i`. -/
theorem callsPushed_drop (cs : List Call) (h : ∀ c ∈ cs, c.wf = true)
    (i : Nat) (hi : i < cs.length) :
    (callsPushed cs).drop (callsGen (cs.take i)) =
      (cs.get ⟨i, hi⟩).pushed ++ callsPushed (cs.drop (i + 1)) := by
  induction cs generalizing i with
  | nil => simp at hi
  | cons c cs ih =>
    cases i with
    | zero => simp [callsGen, callsPushed]
    | succ i =>
      have hw : c.wf = true := h c (List.mem_cons_self c cs)
      have hlen := Call.wf_pushed_length c hw
      have hi' : i < cs.length := Nat.lt_of_succ_lt_succ hi
      have ih' := ih (fun d hd => h d (List.mem_cons_of_mem c hd)) i hi'
      simp only [callsPushed, List.take_succ_cons, callsGen, List.drop_succ_cons,
        List.get_cons_succ]
      rw [← hlen, List.drop_append, ih']

/-- Claim C2: starting from `New()`, after any well-formed call sequence
the ledger is the concatenation, in call order, of the values supplied
by the calls; the counter equals the total number of placeholders
generated; the ledger length equals the counter; and for every call
index `i`, the ledger entries at positions following the placeholders
generated by the earlier calls are exactly the values supplied by call
`i` — entry `K` is the value supplied at the call that generated
placeholder `$K`. -/
theorem C2_ledger_parallel_invariant :
    ∀ (cs : List Call), (∀ c ∈ cs, c.wf = true) →
      (applyAll Builder.new cs).args = callsPushed cs
      ∧ (applyAll Builder.new cs).argIndex = callsGen cs
      ∧ (applyAll Builder.new cs).args.length = (applyAll Builder.new cs).argIndex
      ∧ ∀ (i : Nat) (hi : i < cs.length),
          ((applyAll Builder.new cs).args.drop (callsGen (cs.take i))).take
              (cs.get ⟨i, hi⟩).gen
            = (cs.get ⟨i, hi⟩).pushed := by
  intro cs h
  have hbase := applyAll_args_argIndex cs Builder.new
  have hargs : (applyAll Builder.new cs).args = callsPushed cs := by
    rw [hbase.1]
    rfl
  have hidx : (applyAll Builder.new cs).argIndex = callsGen cs := by
    rw [hbase.2]
    exact Nat.zero_add _
  refine ⟨hargs, hidx, ?_, ?_⟩
  · rw [hargs, hidx, callsPushed_length cs h]
  · intro i hi
    rw [hargs, callsPushed_drop cs h i hi,
        ← Call.wf_pushed_length (cs.get ⟨i, hi⟩) (h _ (List.get_mem cs i hi)),
        List.take_left]

/-- Concrete instance of C2: a `Where` with one marker followed by a
two-value `Values` yields a three-entry ledger parallel to counter 3,
with the slices matching the supplying calls. -/
theorem C2_ledger_parallel_invariant_witness :
    (applyAll Builder.new
        [Call.whereC "id = ?" [Val.vint 1], Call.values [Val.vstr "a", Val.vstr "b"]]).args.length
      = (applyAll Builder.new
          [Call.whereC "id = ?" [Val.vint 1], Call.values [Val.vstr "a", Val.vstr "b"]]).argIndex :=
  (C2_ledger_parallel_invariant
    [Call.whereC "id = ?" [Val.vint 1], Call.values [Val.vstr "a", Val.vstr "b"]]
    (by decide)).2.2.1

/-! Lemmas about the struct binder. -/

/-- Inserting a key that is not yet present appends the pair. -/
theorem mapInsert_of_fresh (m : List (String × Val)) (k : String) (v : Val)
    (h : ∀ p ∈ m, p.1 ≠ k) : mapInsert m k v = m ++ [(k, v)] := by
  have hany : m.any (fun p => p.1 == k) = false := by
    rw [List.any_eq_false]
    intro p hp
    simpa using h p hp
  simp [mapInsert, hany]

/-- When the nonempty tags are pairwise distinct and do not collide with
the accumulator's keys, the field loop appends exactly the tagged
fields, in declaration order. -/
theorem bindFields_of_nodup (fs : List Field) (acc : List (String × Val))
    (h : (acc.map Prod.fst ++
      (fs.filter (fun f => f.tag != "")).map Field.tag).Nodup) :
    bindFields fs acc =
      acc ++ (fs.filter (fun f => f.tag != "")).map (fun f => (f.tag, f.value)) := by
  induction fs generalizing acc with
  | nil => simp [bindFields]
  | cons f fs ih =>
    by_cases ht : f.tag = ""
    · rw [bindFields, if_neg (by simp [ht])]
      have hfilter : (f :: fs).filter (fun g => g.tag != "") =
          fs.filter (fun g => g.tag != "") := by
        simp [List.filter_cons, ht]
      rw [hfilter] at h ⊢
      exact ih acc h
    · have hfilter : (f :: fs).filter (fun g => g.tag != "") =
          f :: fs.filter (fun g => g.tag != "") := by
        simp [List.filter_cons, bne_iff_ne, ht]
      rw [hfilter] at h ⊢
      have h' := h
      rw [List.nodup_append] at h'
      have hfresh : ∀ p ∈ acc, p.1 ≠ f.tag := by
        intro p hp heq
        exact h'.2.2 (heq ▸ List.mem_map_of_mem Prod.fst hp)
          (by simp [List.map_cons])
      rw [bindFields, if_pos ht, mapInsert_of_fresh acc f.tag f.value hfresh,
          ih (acc ++ [(f.tag, f.value)]) (by simpa [List.map_append] using h)]
      simp

/-- Claim C8: for a struct input (a pointer is dereferenced first), `Bind`
returns the mapping holding exactly the top-level fields carrying a
nonempty `db` tag, keyed by tag and valued by the field's value (here
under the natural assumption that the declared tags are pairwise
distinct, without which a Go map cannot hold them all anyway); a value
with no tagged fields yields the empty mapping rather than an error;
and the table name is set to the lower-cased declared type name exactly
when no table name was set, and is untouched otherwise (as is all other
builder state). -/
theorem C8_bind_struct_binder :
    (∀ (b : Builder) (obj : StructVal),
        ((obj.fields.filter (fun f => f.tag != "")).map Field.tag).Nodup →
        (b.bind obj).1 =
          (obj.fields.filter (fun f => f.tag != "")).map (fun f => (f.tag, f.value)))
    ∧ (∀ (b : Builder) (obj : StructVal),
        (∀ f ∈ obj.fields, f.tag = "") → (b.bind obj).1 = [])
    ∧ (∀ (b : Builder) (obj : StructVal), b.table = "" →
        (b.bind obj).2 = { b with table := toLowerStr obj.typeName })
    ∧ (∀ (b : Builder) (obj : StructVal), b.table ≠ "" → (b.bind obj).2 = b) := by
  refine ⟨?_, ?_, ?_, ?_⟩
  · intro b obj h
    show bindFields obj.fields [] = _
    rw [bindFields_of_nodup obj.fields [] (by simpa using h)]
    simp
  · intro b obj h
    have hf : obj.fields.filter (fun f => f.tag != "") = [] := by
      rw [List.filter_eq_nil_iff]
      intro f hf
      simp [h f hf]
    show bindFields obj.fields [] = _
    rw [bindFields_of_nodup obj.fields [] (by simp [hf])]
    simp [hf]
  · intro b obj h
    simp [Builder.bind, h]
  · intro b obj h
    simp [Builder.bind, h]

/-- Concrete instances of C8: a struct with two tagged fields and one
untagged field binds to the two-entry mapping; a fresh builder gets the
lower-cased type name as table; an already-set table is kept. -/
theorem C8_bind_struct_binder_witness :
    (Builder.new.bind
        ⟨"User", [⟨"id", Val.vint 0⟩, ⟨"name", Val.vstr "z"⟩, ⟨"", Val.vint 7⟩]⟩).1
      = [("id", Val.vint 0), ("name", Val.vstr "z")]
    ∧ (Builder.new.bind ⟨"User", []⟩).2 = { Builder.new with table := "user" }
    ∧ ((Builder.new.fromT "users").bind ⟨"User", []⟩).2 = Builder.new.fromT "users" := by
  refine ⟨?_, ?_, ?_⟩
  · rw [C8_bind_struct_binder.1 Builder.new
      ⟨"User", [⟨"id", Val.vint 0⟩, ⟨"name", Val.vstr "z"⟩, ⟨"", Val.vint 7⟩]⟩
      (by decide)]
    rfl
  · rw [C8_bind_struct_binder.2.2.1 Builder.new ⟨"User", []⟩ rfl]
    rfl
  · exact C8_bind_struct_binder.2.2.2 (Builder.new.fromT "users") ⟨"User", []⟩
      (by decide)

end Toki
